import Mathlib

/-!
Shallow embedding of `src/html/interpreter/interpreter.js`, a parser and
evaluator for a minimal esoteric language (Brainfuck).

The JavaScript source has two entry points:

* `parse(blob)`: a recursive structural parser returning
  `{res, error}` — modelled here by `parse : List Char → Except String (List Node)`
  (`.error e` corresponds to a result with `error = e` and no usable `res`,
  `.ok r` to `{res: r, error: ''}`).
* `eval(blob)`: an index-driven evaluator over a 30000-cell tape returning
  `{ptrPos, stdout, mem, error}` — modelled here by a fuel-indexed loop
  `evalLoop` (the source language has unbounded loops, and the source's
  backward bracket scan can itself fail to terminate, so the model adds an
  explicit fuel parameter; `.timeout` marks exactly the runs the JS code
  would still be executing).

Modelling decisions for JavaScript semantics, used throughout:

* A tape cell holds a JS number that is either an integer (from `++`/`--`
  starting at 0) or NaN (from incrementing `undefined` past the end of the
  array).  Cells are modelled as `Option Int`, with `none` standing for
  NaN / an absent (`undefined`) element.  Reading a hole, reading past the
  end, reading a negative index, and reading a stored NaN all behave
  identically in every operation the source performs (`== 0` and `> 0` are
  false, `x++` yields NaN, `String.fromCharCode` yields code unit 0), so
  conflating them in `none` is observationally faithful.
* Writing at a negative index stores a non-element property on the JS
  array; the array as a sequence is unchanged and later reads of that index
  behave like NaN — modelled as leaving the tape unchanged (reads of
  negative indices return `none`).
* Writing at an index ≥ the array length extends the array: intermediate
  indices become holes (`none`) and the written value (NaN, i.e. `none`,
  since the read that fed the `++` returned `undefined`) is appended.
* `String.fromCharCode(v)` produces the UTF-16 code unit `ToUint16(v)`:
  `v mod 2^16` for an integer `v`, and 0 for NaN.  The evaluator's output
  (a JS array of one-character strings) is modelled as the `List Nat` of
  those code units.
-/

/-! ### Token constants (mirroring the source's global constants) -/

def TOKEN_INCR : Char := '+'

def TOKEN_DECR : Char := '-'

def TOKEN_LEFT : Char := '<'

def TOKEN_RIGHT : Char := '>'

def TOKEN_LOOP_START : Char := '['

def TOKEN_LOOP_STOP : Char := ']'

def TOKEN_INPUT : Char := ','

def TOKEN_PRINT : Char := '.'

/-! ### Parser -/

/-- A parsed node: either a single leaf character or a nested sequence
(the contents of one loop with the delimiters stripped), mirroring the
nested-JS-array shape produced by `parse`. -/
inductive Node where
  | leaf (c : Char)
  | seq (xs : List Node)

/-- One character's effect inside the parser's balance-counted sub-scan:
the updated balance and whether the character is appended to the collected
inner content.  Mirrors the source: `balance++` on loop-start (appended only
when the resulting balance exceeds 1), `balance--` on loop-stop (appended
only when the resulting balance stays positive), every other character is
always appended. -/
def scanStep (c : Char) (balance : Int) : Int × Bool :=
  if c = TOKEN_LOOP_START then (balance + 1, decide (balance + 1 > 1))
  else if c = TOKEN_LOOP_STOP then (balance - 1, decide (balance - 1 > 0))
  else (balance, true)

/-- The inner do/while of `parse`, entered when the main scan sits on a
`TOKEN_LOOP_START`.  Mirrors the source exactly: starting from the suffix of
the blob that begins at that loop-start, with `balance = 0` and an empty
`innerContent` accumulator, each character updates the balance and is
conditionally collected (`scanStep`); the loop exits as soon as the balance
returns to 0 — yielding `some (innerContent, remaining suffix after the
matching loop-stop)` — and yields `none` ("unterminated loop") when the
input is exhausted first. -/
def scanLoop : List Char → Int → List Char → Option (List Char × List Char)
  | [], _, _ => none
  | c :: rest, balance, acc =>
    let s := scanStep c balance
    let acc' := if s.2 then acc ++ [c] else acc
    if s.1 = 0 then some (acc', rest) else scanLoop rest s.1 acc'

/-- Each sub-scan step consumes one input character and appends at most one
character to the accumulator, so on success the collected inner content
plus the remaining suffix never exceeds the accumulator plus the input. -/
theorem scanLoop_length (l : List Char) :
    ∀ balance acc inner rest, scanLoop l balance acc = some (inner, rest) →
      inner.length + rest.length ≤ acc.length + l.length := by
  induction l with
  | nil => intro balance acc inner rest h; simp [scanLoop] at h
  | cons c l ih =>
    intro balance acc inner rest h
    simp only [scanLoop] at h
    split at h
    · simp only [Option.some.injEq, Prod.mk.injEq] at h
      obtain ⟨rfl, rfl⟩ := h
      by_cases hb : (scanStep c balance).2
      · simp [hb]; omega
      · simp [hb]
    · have := ih _ _ inner rest h
      by_cases hb : (scanStep c balance).2
      · simp [hb] at this; simp; omega
      · simp [hb] at this; simp; omega

/-- At the call site used by `parse` (a suffix beginning with a loop-start,
balance 0, empty accumulator), a successful sub-scan returns an inner blob
and a remaining suffix that are each strictly shorter than the scanned
suffix: the two outermost delimiters are excluded from the inner blob, and
the main scan index strictly advances past them. -/
theorem scanLoop_start_lt (rest inner rest' : List Char)
    (h : scanLoop (TOKEN_LOOP_START :: rest) 0 [] = some (inner, rest')) :
    inner.length < rest.length + 1 ∧ rest'.length < rest.length + 1 := by
  rw [scanLoop] at h
  simp only [scanStep, if_pos rfl] at h
  norm_num at h
  have := scanLoop_length rest _ _ _ _ h
  simp at this
  constructor <;> omega

/-- Worker for `parse`, recursing on an explicit depth counter instead of a
well-founded measure so that the definition stays kernel-computable.  Every
recursive call of the source (`parse(innerContent)` for a loop body, and
the continuation of the main `for` scan) receives a strictly shorter blob,
so a depth of `blob.length + 1` always suffices (any depth beyond the
length gives the same result — see the depth-bound theorem at the end of
this file); the `"out of fuel"` branch is unreachable at that depth.  The main scan mirrors the source: a non-loop-start character
is pushed as a leaf; a loop-start triggers `scanLoop`; on its success the
inner content is parsed recursively, and — faithfully to the source's
double increment of `i` (once by the inner do/while, once by the `for`
update) — the scan resumes after DROPPING one further character
(`rest.drop 1`), so the character immediately following a completed loop
group is silently skipped.  Errors propagate immediately. -/
def parseAux : Nat → List Char → Except String (List Node)
  | 0, _ => .error "out of fuel"
  | _ + 1, [] => .ok []
  | n + 1, c :: rest =>
    if c = TOKEN_LOOP_START then
      match scanLoop (c :: rest) 0 [] with
      | none => .error "unterminated loop"
      | some (inner, rest') =>
        match parseAux n inner with
        | .error e => .error e
        | .ok innerRes =>
          match parseAux n (rest'.drop 1) with
          | .error e => .error e
          | .ok tailRes => .ok (Node.seq innerRes :: tailRes)
    else
      match parseAux n rest with
      | .error e => .error e
      | .ok tailRes => .ok (Node.leaf c :: tailRes)

/-- Model of the source's `parse`: run the worker at the always-sufficient
depth `blob.length + 1`. -/
def parse (blob : List Char) : Except String (List Node) :=
  parseAux (blob.length + 1) blob

/-! ### Evaluator -/

/-- Read `mem[p]` with JavaScript array semantics: an in-range index yields
the stored cell, any other index (past the end or negative) behaves like
NaN / `undefined`, i.e. `none`. -/
def memGet (mem : List (Option Int)) (p : Int) : Option Int :=
  if 0 ≤ p then mem.getD p.toNat none else none

/-- Walk to index `t` and store `v` there: an in-range index is updated in
place, and an index at or past the end extends the list, filling the gap
with holes (`none`) — exactly a JavaScript array's `mem[t] = v` for a
non-negative integer index. -/
def memSetNat : List (Option Int) → Nat → Option Int → List (Option Int)
  | [], 0, v => [v]
  | [], t + 1, v => none :: memSetNat [] t v
  | _ :: rest, 0, v => v :: rest
  | x :: rest, t + 1, v => x :: memSetNat rest t v

/-- Write `mem[p] = v` with JavaScript array semantics: a non-negative
index is written through `memSetNat`; a negative index stores a
non-element property, which leaves the array as a sequence unchanged. -/
def memSet (mem : List (Option Int)) (p : Int) (v : Option Int) : List (Option Int) :=
  if p < 0 then mem
  else memSetNat mem p.toNat v

/-- The source's `mem[datPtr]++`: read, add 1 (NaN propagates), write back. -/
def memIncr (mem : List (Option Int)) (p : Int) : List (Option Int) :=
  memSet mem p ((memGet mem p).map (· + 1))

/-- The source's `mem[datPtr]--`: read, subtract 1 (NaN propagates), write back. -/
def memDecr (mem : List (Option Int)) (p : Int) : List (Option Int) :=
  memSet mem p ((memGet mem p).map (· - 1))

/-- JavaScript `mem[datPtr] > 0`: false for NaN / `undefined`. -/
def jsGtZero : Option Int → Bool
  | none => false
  | some v => decide (0 < v)

/-- JavaScript `String.fromCharCode(v)` produces the UTF-16 code unit
`ToUint16(v)`: `v mod 2^16` for an integer `v`, 0 for NaN / `undefined`. -/
def toUint16 : Option Int → Nat
  | none => 0
  | some v => (v % 65536).toNat

/-- The successful result record of `eval` (`error = ''`): final data
pointer, accumulated output (as UTF-16 code units) and final memory. -/
structure EvalResult where
  ptrPos : Int
  stdout : List Nat
  mem : List (Option Int)
  deriving DecidableEq, Repr

/-- Outcome of running the evaluator's main loop for a bounded number of
iterations: a success record, an error record (`error` non-empty), or
`timeout` when the given iteration budget is exhausted — or when the source
would never finish at all (see `backScan`). -/
inductive EvalOutcome where
  | ok (r : EvalResult)
  | error (msg : String)
  | timeout
  deriving DecidableEq, Repr

/-- The forward balance-counting do/while of the `TOKEN_LOOP_START` case of
`eval`, entered at the loop-start's index `j` with the current cell 0.
Each step updates the balance (`+1` on loop-start, `-1` on loop-stop) and
advances the index; the loop exits when the balance returns to 0 — after
which the enclosing `for`'s own `i++` advances once more, so the main scan
resumes at `j + 2` past the position `j` of the matching loop-stop — and
fails (`none`, "unterminated loop") when the index leaves the blob with a
non-zero balance. -/
def forwardScanFrom (blob : List Char) : List Char → Nat → Int → Option Nat
  | [], _, _ => none
  | c :: rest, j, balance =>
    let balance' := if c = TOKEN_LOOP_START then balance + 1
      else if c = TOKEN_LOOP_STOP then balance - 1 else balance
    if balance' = 0 then some (j + 2)
    else if j + 1 < blob.length then forwardScanFrom blob rest (j + 1) balance'
    else none

/-- Entry point of the forward scan at index `j` (the loop-start's
position): run `forwardScanFrom` on the suffix of the blob starting there.
The recursion is structural on that suffix — each iteration reads the
character at the current index, i.e. the suffix's head — while the exit
test (`i < blob.length`) mirrors the source's guard verbatim. -/
def forwardScan (blob : List Char) (j : Nat) (balance : Int) : Option Nat :=
  forwardScanFrom blob (blob.drop j) j balance

/-- The backward balance-counting do/while of the `TOKEN_LOOP_STOP` case of
`eval`, entered at the loop-stop's index `j` with the current cell > 0.
Each step updates the balance and decrements the index; the loop exits when
the balance returns to 0 at some index `k`, after which the enclosing
`for`'s `i++` resumes the main scan at `k + 1`'s predecessor... precisely:
the do/while leaves `i = k - 1` and the `for` update moves to `k`, the index
of the matching loop-start itself, which is re-dispatched (returned here as
`some k`).  When the scan runs off the start of the blob with a non-zero
balance the source does NOT stop: its guard `i < blob.length` stays true
for every negative `i`, `blob[i]` is `undefined` and never changes the
balance again, so the do/while spins forever — the `if (balance != 0)`
"unterminated loop" check after it is unreachable dead code.  That
divergence is modelled as `none`. -/
def backScan (blob : List Char) (j : Nat) (balance : Int) : Option Nat :=
  let c := blob.getD j ' '
  let balance' := if c = TOKEN_LOOP_START then balance + 1
    else if c = TOKEN_LOOP_STOP then balance - 1 else balance
  if balance' = 0 then some j
  else
    match j with
    | 0 => none
    | j' + 1 => backScan blob j' balance'

/-- The main `for` loop of `eval`, one fuel unit per iteration.  The state
is the scan index `i`, the data pointer, the memory and the accumulated
output; dispatch on `blob[i]` mirrors the source's `switch` case for case.
`.timeout` is returned when the fuel runs out, and also when `backScan`
diverges (a run the JavaScript never finishes). -/
def evalLoop (blob : List Char) :
    Nat → Nat → Int → List (Option Int) → List Nat → EvalOutcome
  | 0, _, _, _, _ => .timeout
  | fuel + 1, i, datPtr, mem, out =>
    if i < blob.length then
      let c := blob.getD i ' '
      if c = TOKEN_INCR then evalLoop blob fuel (i + 1) datPtr (memIncr mem datPtr) out
      else if c = TOKEN_DECR then evalLoop blob fuel (i + 1) datPtr (memDecr mem datPtr) out
      else if c = TOKEN_RIGHT then evalLoop blob fuel (i + 1) (datPtr + 1) mem out
      else if c = TOKEN_LEFT then evalLoop blob fuel (i + 1) (datPtr - 1) mem out
      else if c = TOKEN_INPUT then evalLoop blob fuel (i + 1) datPtr mem out
      else if c = TOKEN_PRINT then
        evalLoop blob fuel (i + 1) datPtr mem (out ++ [toUint16 (memGet mem datPtr)])
      else if c = TOKEN_LOOP_START then
        if memGet mem datPtr = some 0 then
          match forwardScan blob i 0 with
          | none => .error "unterminated loop"
          | some i' => evalLoop blob fuel i' datPtr mem out
        else evalLoop blob fuel (i + 1) datPtr mem out
      else if c = TOKEN_LOOP_STOP then
        if jsGtZero (memGet mem datPtr) then
          match backScan blob i 0 with
          | none => .timeout
          | some i' => evalLoop blob fuel i' datPtr mem out
        else evalLoop blob fuel (i + 1) datPtr mem out
      else evalLoop blob fuel (i + 1) datPtr mem out
    else .ok ⟨datPtr, out, mem⟩

/-- Model of the source's `eval`, run with an iteration budget: a fresh
30000-cell zeroed tape, pointer 0, empty output, scan from index 0. -/
def eval (blob : List Char) (fuel : Nat) : EvalOutcome :=
  evalLoop blob fuel 0 0 (List.replicate 30000 (some 0)) []

/-! ### Memory access lemmas

Characterisations of `memGet` over `memSet` and over the initial tape,
used to execute concrete programs symbolically without normalising the
30000-cell tape. -/

theorem memGet_replicate (n : Nat) (x : Option Int) (p : Int) :
    memGet (List.replicate n x) p = if 0 ≤ p ∧ p.toNat < n then x else none := by
  unfold memGet
  split_ifs with h1 h2 h3
  · exact List.getD_eq_getElem _ _ (by simpa using h2.2) |>.trans (List.getElem_replicate ..)
  · exact List.getD_eq_default _ _ (by simp; omega)
  · omega
  · rfl

theorem memSetNat_getD (t : Nat) : ∀ (mem : List (Option Int)) (q : Nat) (v : Option Int),
    (memSetNat mem t v).getD q none = if q = t then v else mem.getD q none := by
  induction t with
  | zero =>
    intro mem q v
    cases mem <;> cases q <;> simp [memSetNat]
  | succ t ih =>
    intro mem q v
    cases mem with
    | nil =>
      cases q with
      | zero => simp [memSetNat]
      | succ n =>
        simp only [memSetNat, List.getD_cons_succ, List.getD_nil, ih]
        by_cases h : n = t
        · simp [h]
        · rw [if_neg h, if_neg (by omega)]
    | cons x rest =>
      cases q with
      | zero => simp [memSetNat]
      | succ n =>
        simp only [memSetNat, List.getD_cons_succ, ih]
        by_cases h : n = t
        · simp [h]
        · rw [if_neg h, if_neg (by omega)]

theorem memSetNat_length (t : Nat) : ∀ (mem : List (Option Int)) (v : Option Int),
    (memSetNat mem t v).length = if mem.length ≤ t then t + 1 else mem.length := by
  induction t with
  | zero => intro mem v; cases mem <;> simp [memSetNat]
  | succ t ih =>
    intro mem v
    cases mem with
    | nil =>
      simp only [memSetNat, List.length_cons, List.length_nil, ih]
      split_ifs <;> omega
    | cons x rest =>
      simp only [memSetNat, List.length_cons, ih]
      split_ifs <;> omega

theorem memGet_memSet (mem : List (Option Int)) (p q : Int) (v : Option Int) :
    memGet (memSet mem p v) q = if 0 ≤ p ∧ q = p then v else memGet mem q := by
  unfold memGet memSet
  split_ifs
  all_goals try omega
  all_goals try rfl
  all_goals rw [memSetNat_getD]
  all_goals split_ifs
  all_goals first | rfl | (exfalso; omega)

theorem memSet_length (mem : List (Option Int)) (p : Int) (v : Option Int) :
    (memSet mem p v).length =
      if 0 ≤ p ∧ mem.length ≤ p.toNat then p.toNat + 1 else mem.length := by
  unfold memSet
  split_ifs
  all_goals try omega
  all_goals rw [memSetNat_length]
  all_goals split_ifs
  all_goals first | rfl | omega

/-! ### Evaluator helper lemmas -/

/-- Unfolding of one `TOKEN_RIGHT` iteration of the main loop. -/
theorem evalLoop_step_right (blob : List Char) (fuel i : Nat) (datPtr : Int)
    (mem : List (Option Int)) (out : List Nat)
    (h1 : i < blob.length) (h2 : blob.getD i ' ' = TOKEN_RIGHT) :
    evalLoop blob (fuel + 1) i datPtr mem out =
      evalLoop blob fuel (i + 1) (datPtr + 1) mem out := by
  simp only [evalLoop, h2, if_pos h1]
  simp [TOKEN_INCR, TOKEN_DECR, TOKEN_RIGHT]

/-- Unfolding of one `TOKEN_INCR` iteration of the main loop. -/
theorem evalLoop_step_incr (blob : List Char) (fuel i : Nat) (datPtr : Int)
    (mem : List (Option Int)) (out : List Nat)
    (h1 : i < blob.length) (h2 : blob.getD i ' ' = TOKEN_INCR) :
    evalLoop blob (fuel + 1) i datPtr mem out =
      evalLoop blob fuel (i + 1) datPtr (memIncr mem datPtr) out := by
  simp only [evalLoop, h2, if_pos h1]
  simp [TOKEN_INCR]

/-- Unfolding of one `TOKEN_LOOP_STOP` iteration of the main loop when the
current cell is not `> 0`: the loop-stop is simply stepped over. -/
theorem evalLoop_step_stop_le (blob : List Char) (fuel i : Nat) (datPtr : Int)
    (mem : List (Option Int)) (out : List Nat)
    (h1 : i < blob.length) (h2 : blob.getD i ' ' = TOKEN_LOOP_STOP)
    (h3 : jsGtZero (memGet mem datPtr) = false) :
    evalLoop blob (fuel + 1) i datPtr mem out =
      evalLoop blob fuel (i + 1) datPtr mem out := by
  simp only [evalLoop, h2, h3, if_pos h1]
  simp [TOKEN_INCR, TOKEN_DECR, TOKEN_RIGHT, TOKEN_LEFT, TOKEN_INPUT, TOKEN_PRINT,
    TOKEN_LOOP_START, TOKEN_LOOP_STOP]

/-- An increment never shrinks the memory. -/
theorem memIncr_length (mem : List (Option Int)) (p : Int) :
    mem.length ≤ (memIncr mem p).length := by
  unfold memIncr
  rw [memSet_length]
  split_ifs <;> omega

/-- A decrement never shrinks the memory. -/
theorem memDecr_length (mem : List (Option Int)) (p : Int) :
    mem.length ≤ (memDecr mem p).length := by
  unfold memDecr
  rw [memSet_length]
  split_ifs <;> omega

/-- Running the main loop over `k` consecutive `TOKEN_RIGHT` characters
moves the scan index and the data pointer right by `k` and changes nothing
else. -/
theorem evalLoop_rights (blob : List Char) :
    ∀ (k i fuel : Nat) (datPtr : Int) (mem : List (Option Int)) (out : List Nat),
      (∀ j, j < k → blob.getD (i + j) ' ' = TOKEN_RIGHT) → i + k ≤ blob.length →
      evalLoop blob (fuel + k) i datPtr mem out =
        evalLoop blob fuel (i + k) (datPtr + k) mem out := by
  intro k
  induction k with
  | zero => intro i fuel datPtr mem out hj hle; simp
  | succ k ih =>
    intro i fuel datPtr mem out hj hle
    have hc : blob.getD i ' ' = TOKEN_RIGHT := by simpa using hj 0 (by omega)
    have h1 : evalLoop blob (fuel + (k + 1)) i datPtr mem out =
        evalLoop blob (fuel + k) (i + 1) (datPtr + 1) mem out :=
      evalLoop_step_right blob (fuel + k) i datPtr mem out (by omega) hc
    rw [h1, ih (i + 1) fuel (datPtr + 1) mem out
      (fun j hjk => by
        rw [show i + 1 + j = i + (j + 1) from by omega]
        exact hj (j + 1) (by omega))
      (by omega)]
    congr 1
    · omega
    · push_cast
      ring

set_option maxHeartbeats 1000000 in
/-- No iteration of the main loop ever shrinks the memory, so a successful
run returns a memory at least as long as the one it started from. -/
theorem evalLoop_ok_mem_length (blob : List Char) :
    ∀ (fuel i : Nat) (datPtr : Int) (mem : List (Option Int)) (out : List Nat)
      (r : EvalResult), evalLoop blob fuel i datPtr mem out = .ok r →
      mem.length ≤ r.mem.length := by
  intro fuel
  induction fuel with
  | zero =>
    intro i datPtr mem out r h
    simp only [evalLoop] at h
    exact absurd h (by simp)
  | succ fuel ih =>
    intro i datPtr mem out r h
    simp only [evalLoop] at h
    split_ifs at h
    · exact le_trans (memIncr_length mem datPtr) (ih _ _ _ _ _ h)
    · exact le_trans (memDecr_length mem datPtr) (ih _ _ _ _ _ h)
    all_goals try exact ih _ _ _ _ _ h
    all_goals try (cases h; exact le_refl _)
    all_goals split at h
    all_goals try exact ih _ _ _ _ _ h
    all_goals simp_all

/-- Any two depth budgets strictly larger than the blob's length give the
same parse: every recursive call of `parseAux` is on a strictly shorter
blob, so the recursion depth is bounded by the length. -/
theorem parseAux_eq_of_lt :
    ∀ (fuel : Nat) (blob : List Char) (fuel' : Nat),
      blob.length < fuel → blob.length < fuel' →
      parseAux fuel blob = parseAux fuel' blob := by
  intro fuel
  induction fuel with
  | zero => intro blob fuel' h; omega
  | succ n ih =>
    intro blob fuel' h h'
    obtain ⟨m, rfl⟩ : ∃ m, fuel' = m + 1 := ⟨fuel' - 1, by omega⟩
    cases blob with
    | nil => rfl
    | cons c rest =>
      simp only [parseAux]
      by_cases hc : c = TOKEN_LOOP_START
      · simp only [if_pos hc]
        subst hc
        cases hs : scanLoop (TOKEN_LOOP_START :: rest) 0 [] with
        | none => rfl
        | some pr =>
          obtain ⟨inner, rest'⟩ := pr
          have hlt := scanLoop_start_lt rest inner rest' hs
          have hbl : rest.length + 1 < n + 1 := by simpa using h
          have hbl' : rest.length + 1 < m + 1 := by simpa using h'
          have hdrop : (rest'.drop 1).length ≤ rest'.length := by
            rw [List.length_drop]; omega
          dsimp only
          rw [ih inner m (by omega) (by omega),
            ih (rest'.drop 1) m (by omega) (by omega)]
      · simp only [if_neg hc]
        have hbl : rest.length + 1 < n + 1 := by simpa using h
        have hbl' : rest.length + 1 < m + 1 := by simpa using h'
        rw [ih rest m (by omega) (by omega)]

/-! ### Claim theorems -/

set_option maxRecDepth 8000

/-- C1: the balance round-trip property FAILS on the code.  For the
well-balanced source `"[]+"` the parser returns a single top-level node
(the empty loop sequence): the top-level `'+'` following the loop group is
silently dropped, because after a completed group the scan index is
incremented once by the inner do/while and once more by the `for` update.
The claim predicts 2 top-level items (one nested sequence for `"[]"` plus
one leaf for `'+'`); the code produces 1. -/
theorem parse_drops_char_after_group :
    parse "[]+".toList = .ok [Node.seq []] ∧
      ([Node.seq []] : List Node).length = 1 := ⟨rfl, rfl⟩

/-- C2: on `evaluate("+]")` — a stray loop-stop reached with a positive
cell — the source does NOT terminate with the "unterminated loop" error:
the backward scan's guard `i < blob.length` holds for every negative index,
so the do/while never exits once the scan runs off the start (the
`balance != 0` check after it is dead code).  In the model, no iteration
budget whatsoever makes the run return a result or an error. -/
theorem eval_unmatched_stop_never_returns :
    ∀ fuel : Nat, eval "+]".toList fuel = .timeout := fun fuel =>
  match fuel with
  | 0 => rfl
  | 1 => rfl
  | _ + 2 => rfl

/-- C3: the forward skip does NOT resume at the character immediately
following the matching loop-stop.  `evaluate("[]+")` returns the untouched
all-zero tape — cell 0 ends at 0, not at 1 as the claim states — because
the `for` update increments the index once more after the skip's do/while
already left it one past the matching loop-stop, so the `'+'` is never
executed. -/
theorem eval_skip_overshoots_matching_stop :
    eval "[]+".toList 3 = .ok ⟨0, [], List.replicate 30000 (some 0)⟩ ∧
      memGet (List.replicate 30000 (some 0)) 0 = some 0 := ⟨rfl, rfl⟩

/-- C4 (counterexample): the returned memory is NOT always exactly 30000
integer cells.  The source of 30000 move-rights followed by one increment
writes at index 30000, which extends the JavaScript array: the successful
result's memory has 30001 cells and the new cell holds NaN (`none`), not an
integer. -/
theorem eval_oob_write_grows_mem :
    eval (List.replicate 30000 TOKEN_RIGHT ++ [TOKEN_INCR]) 30002 =
      .ok ⟨30000, [], memIncr (List.replicate 30000 (some 0)) 30000⟩ ∧
    (memIncr (List.replicate 30000 (some 0)) 30000).length = 30001 ∧
    memGet (memIncr (List.replicate 30000 (some 0)) 30000) 30000 = none := by
  have hlen : (List.replicate 30000 TOKEN_RIGHT ++ [TOKEN_INCR]).length = 30001 := by
    rw [List.length_append, List.length_replicate]
    rfl
  refine ⟨?_, ?_, ?_⟩
  · show evalLoop _ 30002 0 0 _ [] = _
    have hrun := evalLoop_rights (List.replicate 30000 TOKEN_RIGHT ++ [TOKEN_INCR]) 30000 0 2 0
      (List.replicate 30000 (some 0)) []
      (fun j hj => by
        rw [Nat.zero_add, List.getD_append _ _ _ _ (by rw [List.length_replicate]; omega),
          List.getD_eq_getElem _ _ (by rw [List.length_replicate]; omega),
          List.getElem_replicate])
      (by rw [hlen]; omega)
    rw [show (30002 : Nat) = 2 + 30000 from rfl, hrun]
    have hc : (List.replicate 30000 TOKEN_RIGHT ++ [TOKEN_INCR]).getD 30000 ' ' =
        TOKEN_INCR := by
      rw [List.getD_append_right _ _ _ _ (by rw [List.length_replicate])]
      rw [List.length_replicate]
      rfl
    show evalLoop _ 2 30000 30000 _ [] = _
    rw [show (2 : Nat) = 1 + 1 from rfl,
      evalLoop_step_incr _ 1 30000 30000 _ [] (by rw [hlen]; omega) hc]
    rw [show (1 : Nat) = 0 + 1 from rfl, evalLoop]
    rw [if_neg (by rw [hlen]; omega)]
  · rw [memIncr, memSet_length, List.length_replicate, if_pos (by constructor <;> decide)]
    decide
  · rw [memIncr, memGet_memSet, memGet_replicate, if_pos (by constructor <;> decide)]
    rw [if_neg (by decide)]
    rfl

/-- C4 (amended): every successful call to `eval` returns a memory of AT
LEAST 30000 cells — the tape never shrinks, and exactly 30000 holds only
when no write lands at or past index 30000. -/
theorem eval_ok_mem_length_ge (blob : List Char) (fuel : Nat) (r : EvalResult)
    (h : eval blob fuel = .ok r) : 30000 ≤ r.mem.length := by
  have h2 := evalLoop_ok_mem_length blob fuel 0 0 (List.replicate 30000 (some 0)) [] r h
  rwa [List.length_replicate] at h2

/-- Witness for the amended C4 theorem at the empty program. -/
theorem eval_ok_mem_length_ge_witness :
    30000 ≤ (EvalResult.mk 0 [] (List.replicate 30000 (some 0))).mem.length :=
  eval_ok_mem_length_ge [] 1 ⟨0, [], List.replicate 30000 (some 0)⟩ rfl

/-- C5: `parse("[")`, `parse("[[]")` and `parse("++[--")` all fail with the
unterminated-loop error, while `parse("[]")` and `parse("[[][]]")` succeed
(empty error field, i.e. `.ok`). -/
theorem parse_bracket_examples :
    parse "[".toList = .error "unterminated loop" ∧
    parse "[[]".toList = .error "unterminated loop" ∧
    parse "++[--".toList = .error "unterminated loop" ∧
    parse "[]".toList = .ok [Node.seq []] ∧
    parse "[[][]]".toList = .ok [Node.seq [Node.seq [], Node.leaf TOKEN_LOOP_STOP]] :=
  ⟨rfl, rfl, rfl, rfl, rfl⟩

/-- C6: `evaluate("+++[>+<-]")` succeeds for every sufficient iteration
budget, with final pointer 0, empty output, a 30000-cell memory whose cell
1 holds 3 and every other cell holds 0 (in particular cell 0 ends at 0). -/
theorem eval_copy_loop_example :
    ∀ n : Nat, ∃ r, eval "+++[>+<-]".toList (n + 25) = .ok r ∧ r.ptrPos = 0 ∧
      r.stdout = [] ∧ r.mem.length = 30000 ∧
      ∀ p : Int, memGet r.mem p =
        if p = 1 then some 3 else if 0 ≤ p ∧ p.toNat < 30000 then some 0 else none := by
  intro n
  refine ⟨_, rfl, rfl, rfl, ?_, ?_⟩
  · simp only [memIncr, memDecr, memSet_length, memGet_memSet, memGet_replicate,
      List.length_replicate]
    norm_num
  · intro p
    simp only [memIncr, memDecr, memGet_memSet, memGet_replicate, Option.map_some,
      Option.map_none]
    norm_num
    split_ifs <;> first | rfl | omega

/-- C7: characters outside the 8-token alphabet are no-ops for the
evaluator: `evaluate("+a+b+.")` returns exactly the same result record as
`evaluate("+++.")` (same pointer, memory and output — a single character of
code unit 3). -/
theorem eval_ignores_non_tokens :
    ∀ n : Nat, eval "+a+b+.".toList (n + 7) = eval "+++.".toList (n + 7) := by
  intro n
  have hA : eval "+a+b+.".toList (n + 7) =
      .ok ⟨0, [3], memIncr (memIncr (memIncr (List.replicate 30000 (some 0)) 0) 0) 0⟩ := rfl
  have hB : eval "+++.".toList (n + 7) =
      .ok ⟨0, [3], memIncr (memIncr (memIncr (List.replicate 30000 (some 0)) 0) 0) 0⟩ := rfl
  rw [hA, hB]

/-- C8: the claim FAILS on the code as universally stated.  A stray
loop-stop is indeed never rejected, but when it immediately follows a
completed loop group it is not appended as a leaf either: `parse("[]]")`
succeeds and returns only the empty loop sequence — the stray `']'` is
silently dropped by the same double index increment that C1 exposes. -/
theorem parse_stray_stop_after_group_dropped :
    parse "[]]".toList = .ok [Node.seq []] := rfl

/-- C9: `parse` terminates on every input.  A successful balance-counted
sub-scan returns an inner blob and a remaining suffix both strictly shorter
than the suffix it scanned (the two outermost delimiters are excluded and
the scan index strictly advances), so the recursion depth of the parser is
bounded by the input length: any depth budget beyond `blob.length` yields
exactly `parse blob`, never the out-of-fuel marker. -/
theorem parse_terminates_depth_bound :
    (∀ (rest inner rest' : List Char),
        scanLoop (TOKEN_LOOP_START :: rest) 0 [] = some (inner, rest') →
        inner.length < (TOKEN_LOOP_START :: rest).length ∧
        rest'.length < (TOKEN_LOOP_START :: rest).length) ∧
    ∀ (blob : List Char) (fuel : Nat), blob.length < fuel →
      parseAux fuel blob = parse blob := by
  constructor
  · intro rest inner rest' hs
    simpa using scanLoop_start_lt rest inner rest' hs
  · intro blob fuel h
    exact parseAux_eq_of_lt fuel blob (blob.length + 1) h (by omega)

/-- Witness for the C9 theorem on the source "[]" and a one-character
parse. -/
theorem parse_terminates_depth_bound_witness :
    (([] : List Char).length < (TOKEN_LOOP_START :: [TOKEN_LOOP_STOP]).length ∧
      ([] : List Char).length < (TOKEN_LOOP_START :: [TOKEN_LOOP_STOP]).length) ∧
    parseAux 2 [TOKEN_INCR] = parse [TOKEN_INCR] :=
  ⟨parse_terminates_depth_bound.1 [TOKEN_LOOP_STOP] [] [] rfl,
   parse_terminates_depth_bound.2 [TOKEN_INCR] 2 (by decide)⟩

/-- C10: a loop-stop reached while the current cell is not `> 0` is simply
stepped over with no error, whether or not it has a matching loop-start;
in particular `evaluate("]")` succeeds with pointer 0, the untouched
all-zero 30000-cell tape, and empty output. -/
theorem eval_stray_stop_skipped :
    (∀ (blob : List Char) (fuel i : Nat) (datPtr : Int) (mem : List (Option Int))
        (out : List Nat), i < blob.length → blob.getD i ' ' = TOKEN_LOOP_STOP →
        jsGtZero (memGet mem datPtr) = false →
        evalLoop blob (fuel + 1) i datPtr mem out =
          evalLoop blob fuel (i + 1) datPtr mem out) ∧
    (∀ n : Nat, eval "]".toList (n + 2) = .ok ⟨0, [], List.replicate 30000 (some 0)⟩) ∧
    (List.replicate 30000 ((some 0 : Option Int))).length = 30000 ∧
    ∀ p : Int, memGet (List.replicate 30000 (some 0)) p =
      if 0 ≤ p ∧ p.toNat < 30000 then some 0 else none := by
  refine ⟨?_, fun n => rfl, List.length_replicate .., fun p => memGet_replicate ..⟩
  intro blob fuel i datPtr mem out h1 h2 h3
  exact evalLoop_step_stop_le blob fuel i datPtr mem out h1 h2 h3

/-- Witness for the C10 theorem on the source "]". -/
theorem eval_stray_stop_skipped_witness :
    evalLoop "]".toList (0 + 1) 0 0 (List.replicate 30000 (some 0)) [] =
      evalLoop "]".toList 0 (0 + 1) 0 (List.replicate 30000 (some 0)) [] ∧
    eval "]".toList (0 + 2) = .ok ⟨0, [], List.replicate 30000 (some 0)⟩ :=
  ⟨eval_stray_stop_skipped.1 "]".toList 0 0 0 (List.replicate 30000 (some 0)) []
      (by decide) (by decide) (by decide),
    eval_stray_stop_skipped.2.1 0⟩
